import Mathlib

/-!
Verification development for the `sized` package (`src/sized/gen.py`).

The Python source is shallowly embedded:
* Python machine-level details do not matter here; sizes are `Int` (Python
  ints are unbounded) and the consumption index is a `Nat` (it starts at 0
  and is only ever incremented).
* A generator is modelled as a state machine (`Gen`): `stepFn` models
  `gen.send` and `throwFn` models `gen.throw`.  An operation on a generator
  either yields a value, raises `StopIteration` (`PullResult.stop`) or
  raises another exception (`PullResult.raise`).
* Exceptions raised by the library itself are modelled by the structured
  type `Err`; each constructor carries exactly the data interpolated into
  the corresponding Python message, so "the error names X" is statable.
* `kwargs` is a partial map `String → Option α`; the `null` sentinel used
  by `_get_keywords` is modelled by `Option` (`none` = sentinel), which is
  faithful because the sentinel object is private to the module.
-/

namespace Sized

/-- Outcome of driving a generator one step: a yielded value, a
`StopIteration`, or another raised exception. -/
inductive PullResult (β ε : Type) where
  | yield (v : β)
  | stop
  | raiseExc (e : ε)
  deriving DecidableEq, Repr

/-- A Python generator, modelled as a state machine.  `stepFn` models
`gen.send(value)` (returning the outcome and the generator's new internal
state); `throwFn` models `gen.throw(exc)`. -/
structure Gen (σ ι β ε : Type) where
  state : σ
  stepFn : σ → ι → PullResult β ε × σ
  throwFn : σ → ε → PullResult β ε × σ

/-- Errors raised by the library code, with the data its messages
interpolate.  `missingArgument f k` is the `TypeError` raised in
`_resolve_args` (message names the function and the parameter);
`shouldBeIntOrSized v t` is the `TypeError` raised in `_get_size` (message
names the offending value and its type); `expectedIntOrCallable t` is the
`TypeError` raised in the decorator's `wrapper` (its message names only the
type of the offending size specification, not the value). -/
inductive Err where
  | missingArgument (funcName paramName : String)
  | shouldBeIntOrSized (valDesc tyName : String)
  | expectedIntOrCallable (tyName : String)
  deriving DecidableEq, Repr

/-- A value examined by `_get_size`: a Python `int`, a `Sized` object
(carrying the non-negative result of its `len()`), or any other value
(carrying its display text and type name, the data `TypeError` messages
interpolate). -/
inductive SizeLike where
  | int (n : Int)
  | sizedObj (length : Nat)
  | other (valDesc tyName : String)
  deriving DecidableEq, Repr

/-- Embedding of `_get_size`: an `int` is returned unchanged (no sign
check), a `Sized` resolves to its length, anything else raises a
`TypeError` whose message interpolates the offending value and its type
(`... should be int or Sized, not ...`). -/
def get_size : SizeLike → Except Err Int
  | .int n => .ok n
  | .sizedObj l => .ok (l : Int)
  | .other v t => .error (.shouldBeIntOrSized v t)

/-- Embedding of the `SizedGenerator` object state: the wrapped generator
`_gen`, the resolved `_length`, and the consumption counter `_index`. -/
structure SizedGenerator (σ ι β ε : Type) where
  gen : Gen σ ι β ε
  length : Int
  index : Nat

/-- Embedding of `SizedGenerator.__init__`: `_length` is `_get_size(size_like)`
and `_index` starts at 0.  (The `isinstance(gen, Generator)` check is
enforced by typing here: the first argument is already a `Gen`.) -/
def SizedGenerator.init (g : Gen σ ι β ε) (sl : SizeLike) :
    Except Err (SizedGenerator σ ι β ε) :=
  (get_size sl).map fun n => { gen := g, length := n, index := 0 }

/-- Embedding of `SizedGenerator.send`: if `self._index > self._length`
raise `StopIteration` (underlying generator untouched); otherwise increment
`_index` and forward to `self._gen.send` — the increment survives even when
the underlying pull raises, exactly as the mutation of `self._index`
precedes the `self._gen.send` call in the source. -/
def SizedGenerator.send (s : SizedGenerator σ ι β ε) (v : ι) :
    PullResult β ε × SizedGenerator σ ι β ε :=
  if (s.index : Int) > s.length then (.stop, s)
  else
    let stepped := s.gen.stepFn s.gen.state v
    (stepped.1,
      { s with index := s.index + 1, gen := { s.gen with state := stepped.2 } })

/-- Embedding of `SizedGenerator.throw`: `return self._gen.throw(...)` —
the outcome is exactly the underlying generator's outcome and neither
`_length` nor `_index` is touched. -/
def SizedGenerator.throw (s : SizedGenerator σ ι β ε) (e : ε) :
    PullResult β ε × SizedGenerator σ ι β ε :=
  let thrown := s.gen.throwFn s.gen.state e
  (thrown.1, { s with gen := { s.gen with state := thrown.2 } })

/-- Embedding of `SizedGenerator.__len__`: `self._length - self._index`,
an `Int` that may be negative. -/
def SizedGenerator.len (s : SizedGenerator σ ι β ε) : Int :=
  s.length - s.index

/-- Drive the wrapper `n` times with a fixed input (modelling `next`
iteration), collecting the outcome of each step. -/
def runSends (v : ι) : Nat → SizedGenerator σ ι β ε →
    List (PullResult β ε) × SizedGenerator σ ι β ε
  | 0, s => ([], s)
  | n + 1, s =>
    let first := s.send v
    let rest := runSends v n first.2
    (first.1 :: rest.1, rest.2)

/-- A Python function signature as seen by `inspect.getfullargspec`:
declared parameter names in order, and default values (aligned to the
trailing parameters). -/
structure FuncSig (α : Type) where
  args : List String
  defaults : List α

/-- The dict comprehension in `_get_keywords`, fused with the `zip`:
each parameter name is paired with its seed value unless the caller
supplied the name as a keyword, which overrides it.  (Python parameter
names are distinct, so the dict comprehension is a plain ordered zip.) -/
def kwZip (kwargs : String → Option α) :
    List String → List (Option α) → List (String × Option α)
  | [], _ => []
  | _ :: _, [] => []
  | k :: ks, v :: vs =>
    (k, match kwargs k with | some w => some w | none => v) :: kwZip kwargs ks vs

/-- Embedding of `_get_keywords`: seed values are `null` sentinels
(`none`) padded to align the defaults with the trailing parameters, then
keyword arguments override by name. -/
def get_keywords (sig : FuncSig α) (kwargs : String → Option α) :
    List (String × Option α) :=
  kwZip kwargs sig.args
    (List.replicate (sig.args.length - sig.defaults.length) none
      ++ sig.defaults.map some)

/-- The dict entries added by the `arg_dict.update` call over
`enumerate(args)`: one entry per supplied positional argument, keyed by
its stringified index (counting from `i`).  Parameter names are Python
identifiers and can never equal a decimal numeral, so the `update` only
appends fresh keys. -/
def indexEntries : List α → Nat → List (String × Option α)
  | [], _ => []
  | a :: rest, i => (toString i, some a) :: indexEntries rest (i + 1)

/-- The `for i, (k, v) in enumerate(arg_dict.items())` loop of
`_resolve_args`: each entry still holding the `null` sentinel is replaced
by the positional argument at the entry's enumeration index, or the loop
raises the missing-required-positional-argument `TypeError` naming the
function and that entry's key.  The Python loop mutates only the
value at the position being visited, so it is a left-to-right rewrite of
the entry list. -/
def fillGo (fn : String) (args : List α) :
    List (String × Option α) → Nat → Except Err (List (String × Option α))
  | [], _ => .ok []
  | (k, none) :: rest, i =>
    match args[i]? with
    | some a => (fillGo fn args rest (i + 1)).map fun r => (k, some a) :: r
    | none => .error (.missingArgument fn k)
  | (k, some v) :: rest, i =>
    (fillGo fn args rest (i + 1)).map fun r => (k, some v) :: r

/-- Embedding of `_resolve_args`: build the keyword dict, append the
stringified-index entries for the positional arguments, then run the
sentinel-filling loop over the whole dict. -/
def resolve_args (fn : String) (sig : FuncSig α) (args : List α)
    (kwargs : String → Option α) : Except Err (List (String × Option α)) :=
  fillGo fn args (get_keywords sig kwargs ++ indexEntries args 0) 0

/-- Python `dict` lookup on the ordered entry list (first matching key). -/
def dictGet (d : List (String × Option α)) (k : String) : Option (Option α) :=
  match d with
  | [] => none
  | (k₁, v) :: rest => if k₁ = k then some v else dictGet rest k

/-- A size specification as accepted by the `sized` decorator: an `int`, a
`Sized` object, a callable from the argument dict to an (unnormalized)
size-like value, or any other value (carrying its display text and type
name). -/
inductive SizeSpec (α : Type) where
  | int (n : Int)
  | sizedObj (length : Nat)
  | callable (f : List (String × Option α) → SizeLike)
  | other (valDesc tyName : String)

/-- Embedding of `_size_call`: call the size callable on the argument dict
and normalize the result through `_get_size`. -/
def size_call (f : List (String × Option α) → SizeLike)
    (d : List (String × Option α)) : Except Err Int :=
  get_size (f d)

/-- The size-resolution part of the decorator's `wrapper`:
`isinstance(size, (int, Sized))` resolves through `_get_size`; a callable
resolves through `_resolve_args` then `_size_call`; anything else raises
`TypeError` with message `Expected int or Callable, got <type>` — a message
that names only the type of the offending specification. -/
def wrapperResolve (size : SizeSpec α) (fn : String) (sig : FuncSig α)
    (args : List α) (kwargs : String → Option α) : Except Err Int :=
  match size with
  | .int n => get_size (.int n)
  | .sizedObj l => get_size (.sizedObj l)
  | .callable f => (resolve_args fn sig args kwargs).bind fun d => size_call f d
  | .other _ t => .error (.expectedIntOrCallable t)

/-- Embedding of one call of the decorated function (`wrapper` in the
source): resolve the size first, and only then invoke the wrapped
generator-producing function `func` and build the `SizedGenerator` over its
result.  `func` is the call producing the underlying generator; it is
consulted only after size resolution succeeds. -/
def sized_call (size : SizeSpec α) (fn : String) (sig : FuncSig α)
    (func : List α → (String → Option α) → Gen σ ι β ε)
    (args : List α) (kwargs : String → Option α) :
    Except Err (SizedGenerator σ ι β ε) :=
  (wrapperResolve size fn sig args kwargs).bind fun n =>
    SizedGenerator.init (func args kwargs) (.int n)

/-- A concrete unbounded generator: yields 0, 1, 2, … on successive sends
(its state is the next value to yield) and does not handle thrown
exceptions (`gen.throw` re-raises them). -/
def counterGen : Gen Nat Unit Nat Nat :=
  { state := 0
    stepFn := fun n _ => (.yield n, n + 1)
    throwFn := fun n e => (.raiseExc e, n) }

/-- A concrete generator whose every pull raises exception code 7, and
which does not handle thrown exceptions. -/
def raisingGen : Gen Nat Unit Nat Nat :=
  { state := 0
    stepFn := fun n _ => (.raiseExc 7, n)
    throwFn := fun n e => (.raiseExc e, n) }

/-- A concrete generator that handles any thrown exception by yielding 99
(a generator with a `try/except` around its `yield`). -/
def recoveringGen : Gen Nat Unit Nat Nat :=
  { state := 0
    stepFn := fun n _ => (.yield n, n + 1)
    throwFn := fun n _ => (.yield 99, n + 1) }

/-- Decimal value of a digit character (inverse of `Nat.digitChar` on
digits below 10); used to prove that stringified indices are distinct. -/
def charVal (c : Char) : Nat :=
  c.toNat - 48

/-- Fresh wrapper of declared size 10 over the unbounded counter generator
(the state `SizedGenerator(gen, 10)` constructs). -/
def sCounter10 : SizedGenerator Nat Unit Nat Nat :=
  { gen := counterGen, length := 10, index := 0 }

/-- Fresh wrapper of declared size 2 over the unbounded counter generator. -/
def sCounter2 : SizedGenerator Nat Unit Nat Nat :=
  { gen := counterGen, length := 2, index := 0 }

/-- Fresh wrapper of declared size 0 over the unbounded counter generator. -/
def sCounter0 : SizedGenerator Nat Unit Nat Nat :=
  { gen := counterGen, length := 0, index := 0 }

/-- Fresh wrapper of declared size −1 over the unbounded counter generator. -/
def sCounterNeg : SizedGenerator Nat Unit Nat Nat :=
  { gen := counterGen, length := -1, index := 0 }

/-- Fresh wrapper of declared size 5 over the always-raising generator. -/
def sRaise5 : SizedGenerator Nat Unit Nat Nat :=
  { gen := raisingGen, length := 5, index := 0 }

/-- Fresh wrapper of declared size 5 over the exception-handling generator. -/
def sRecover5 : SizedGenerator Nat Unit Nat Nat :=
  { gen := recoveringGen, length := 5, index := 0 }

/-- Proof-side specification of what `fillGo` produces for a lookup:
scan the pre-fill dict, and where an entry still holds the sentinel report
the positional argument at that entry's enumeration position.  Used only to
state lemmas about `resolve_args`. -/
def dictGetFrom (args : List α) :
    List (String × Option α) → Nat → String → Option (Option α)
  | [], _, _ => none
  | (k₁, v) :: rest, i, k =>
    if k₁ = k then
      some (match v with | some w => some w | none => args[i]?)
    else dictGetFrom args rest (i + 1) k

end Sized

namespace Sized

/-! ### Distinctness of stringified indices

The positional-index keys of the argument dict are `toString i` for
`i : Nat` (Python `str(idx)`).  The library has no injectivity lemma for
`Nat.repr`, so we derive one from `Nat.digits`. -/

theorem charVal_digitChar : ∀ d < 10, charVal (Nat.digitChar d) = d := by
  decide

theorem toDigitsCore_eq_digits (b : Nat) (hb : 1 < b) :
    ∀ (f n : Nat) (ds : List Char), n ≠ 0 → n < f →
      Nat.toDigitsCore b f n ds =
        ((Nat.digits b n).map Nat.digitChar).reverse ++ ds := by
  intro f
  induction f with
  | zero => intro n ds hn h; omega
  | succ f ih =>
    intro n ds hn hf
    by_cases h0 : n / b = 0
    · rw [Nat.digits_def' hb (Nat.pos_of_ne_zero hn), h0]
      simp [Nat.toDigitsCore, h0]
    · have hlt : n / b < f := by
        have := Nat.div_lt_self (Nat.pos_of_ne_zero hn) hb
        omega
      rw [Nat.digits_def' hb (Nat.pos_of_ne_zero hn)]
      simp only [Nat.toDigitsCore, h0, if_false]
      rw [ih (n / b) (Nat.digitChar (n % b) :: ds) h0 hlt]
      simp

theorem toDigits_ten_eq (n : Nat) (hn : n ≠ 0) :
    Nat.toDigits 10 n = ((Nat.digits 10 n).map Nat.digitChar).reverse := by
  have h := toDigitsCore_eq_digits 10 (by norm_num) (n + 1) n [] hn (Nat.lt_succ_self n)
  simpa [Nat.toDigits] using h

theorem map_charVal_map_digitChar (l : List Nat) (hl : ∀ d ∈ l, d < 10) :
    (l.map Nat.digitChar).map charVal = l := by
  induction l with
  | nil => simp
  | cons d l ih =>
    simp only [List.map_cons, List.cons.injEq]
    exact ⟨charVal_digitChar d (hl d (by simp)),
      ih fun x hx => hl x (by simp [hx])⟩

theorem toDigits_ten_injective (m n : Nat)
    (h : Nat.toDigits 10 m = Nat.toDigits 10 n) : m = n := by
  have digits_bound : ∀ k : Nat, ∀ d ∈ Nat.digits 10 k, d < 10 := by
    intro k d hd
    exact Nat.digits_lt_base (by norm_num) hd
  have decode : ∀ k : Nat, k ≠ 0 →
      ((Nat.toDigits 10 k).map charVal).reverse = Nat.digits 10 k := by
    intro k hk
    rw [toDigits_ten_eq k hk, List.map_reverse, List.reverse_reverse,
      map_charVal_map_digitChar _ (digits_bound k)]
  by_cases hm : m = 0 <;> by_cases hn : n = 0
  · omega
  · exfalso
    subst hm
    have h0 : Nat.toDigits 10 0 = ['0'] := by decide
    have : ((['0'] : List Char).map charVal).reverse = Nat.digits 10 n := by
      rw [← decode n hn, ← h, h0]
    have hdig : Nat.digits 10 n = [0] := by
      simpa [charVal] using this.symm
    have := Nat.ofDigits_digits 10 n
    rw [hdig] at this
    simp [Nat.ofDigits] at this
    omega
  · exfalso
    subst hn
    have h0 : Nat.toDigits 10 0 = ['0'] := by decide
    have : ((['0'] : List Char).map charVal).reverse = Nat.digits 10 m := by
      rw [← decode m hm, h, h0]
    have hdig : Nat.digits 10 m = [0] := by
      simpa [charVal] using this.symm
    have := Nat.ofDigits_digits 10 m
    rw [hdig] at this
    simp [Nat.ofDigits] at this
    omega
  · have hm' := decode m hm
    have hn' := decode n hn
    rw [h] at hm'
    have : Nat.digits 10 m = Nat.digits 10 n := by rw [← hm', hn']
    have hm2 := Nat.ofDigits_digits 10 m
    have hn2 := Nat.ofDigits_digits 10 n
    rw [this] at hm2
    omega

theorem natToString_injective (m n : Nat) (h : toString m = toString n) :
    m = n := by
  have h2 : Nat.toDigits 10 m = Nat.toDigits 10 n := by
    simpa [Nat.repr, List.asString] using congrArg String.data h
  exact toDigits_ten_injective m n h2

end Sized

namespace Sized

/-! ### Lemmas about the argument-dict machinery -/

theorem fillGo_ok_dictGet (fn : String) (args : List α) :
    ∀ (d : List (String × Option α)) (i : Nat) (d₂ : List (String × Option α)),
      fillGo fn args d i = .ok d₂ → ∀ k, dictGet d₂ k = dictGetFrom args d i k := by
  intro d
  induction d with
  | nil =>
    intro i d₂ h k
    simp only [fillGo, Except.ok.injEq] at h
    subst h
    simp [dictGet, dictGetFrom]
  | cons hd rest ih =>
    obtain ⟨k₁, v⟩ := hd
    intro i d₂ h k
    cases v with
    | none =>
      simp only [fillGo] at h
      cases hargs : args[i]? with
      | none => rw [hargs] at h; simp at h
      | some a =>
        rw [hargs] at h
        cases hrec : fillGo fn args rest (i + 1) with
        | error e => rw [hrec] at h; simp [Except.map] at h
        | ok r =>
          rw [hrec] at h
          simp only [Except.map, Except.ok.injEq] at h
          subst h
          simp only [dictGet, dictGetFrom]
          by_cases hk : k₁ = k
          · simp [hk, hargs]
          · simp [hk, ih _ _ hrec k]
    | some w =>
      simp only [fillGo] at h
      cases hrec : fillGo fn args rest (i + 1) with
      | error e => rw [hrec] at h; simp [Except.map] at h
      | ok r =>
        rw [hrec] at h
        simp only [Except.map, Except.ok.injEq] at h
        subst h
        simp only [dictGet, dictGetFrom]
        by_cases hk : k₁ = k
        · simp [hk]
        · simp [hk, ih _ _ hrec k]

theorem dictGetFrom_append (args : List α) :
    ∀ (d₁ d₂ : List (String × Option α)) (i : Nat) (k : String),
      dictGetFrom args (d₁ ++ d₂) i k =
        match dictGetFrom args d₁ i k with
        | some v => some v
        | none => dictGetFrom args d₂ (i + d₁.length) k := by
  intro d₁
  induction d₁ with
  | nil => intro d₂ i k; simp [dictGetFrom]
  | cons hd rest ih =>
    obtain ⟨k₁, v⟩ := hd
    intro d₂ i k
    simp only [List.cons_append, dictGetFrom]
    by_cases hk : k₁ = k
    · simp [hk]
    · simp only [hk, if_false]
      have hrw := ih d₂ (i + 1) k
      rw [List.length_cons]
      have harith : i + (rest.length + 1) = i + 1 + rest.length := by omega
      rw [harith, ← hrw]
      rfl

theorem kwZip_getElem (kwargs : String → Option α) :
    ∀ (names : List String) (vals : List (Option α)) (j : Nat) (k : String)
      (v : Option α),
      names[j]? = some k → vals[j]? = some v →
      (kwZip kwargs names vals)[j]? =
        some (k, match kwargs k with | some w => some w | none => v) := by
  intro names
  induction names with
  | nil => intro vals j k v h1 _; simp at h1
  | cons n ns ih =>
    intro vals j k v h1 h2
    cases vals with
    | nil => simp at h2
    | cons v₀ vs =>
      cases j with
      | zero =>
        simp only [List.getElem?_cons_zero, Option.some.injEq] at h1 h2
        subst h1; subst h2
        simp [kwZip]
      | succ j =>
        simp only [List.getElem?_cons_succ] at h1 h2
        simp only [kwZip, List.getElem?_cons_succ]
        exact ih vs j k v h1 h2

theorem dictGetFrom_kwZip_name (args : List α) (kwargs : String → Option α) :
    ∀ (names : List String) (vals : List (Option α)) (i idx : Nat)
      (p : String) (v : Option α),
      names.Nodup → names[idx]? = some p → vals[idx]? = some v →
      dictGetFrom args (kwZip kwargs names vals) i p =
        some (match kwargs p with
              | some w => some w
              | none => match v with | some w => some w | none => args[i + idx]?) := by
  intro names
  induction names with
  | nil => intro vals i idx p v _ h1 _; simp at h1
  | cons n ns ih =>
    intro vals i idx p v hnd h1 h2
    cases vals with
    | nil => simp at h2
    | cons v₀ vs =>
      cases idx with
      | zero =>
        simp only [List.getElem?_cons_zero, Option.some.injEq] at h1 h2
        subst h1; subst h2
        cases hkw : kwargs n <;> simp [kwZip, dictGetFrom, hkw]
      | succ idx =>
        simp only [List.getElem?_cons_succ] at h1 h2
        have hpns : p ∈ ns := List.getElem?_mem h1
        have hne : n ≠ p := by
          intro he
          exact (List.nodup_cons.mp hnd).1 (he ▸ hpns)
        simp only [kwZip, dictGetFrom, if_neg hne]
        have harith : i + 1 + idx = i + (idx + 1) := by omega
        rw [← harith]
        exact ih vs (i + 1) idx p v (List.nodup_cons.mp hnd).2 h1 h2

theorem dictGetFrom_kwZip_notMem (args : List α) (kwargs : String → Option α) :
    ∀ (names : List String) (vals : List (Option α)) (i : Nat) (k : String),
      k ∉ names → dictGetFrom args (kwZip kwargs names vals) i k = none := by
  intro names
  induction names with
  | nil => intro vals i k _; simp [kwZip, dictGetFrom]
  | cons n ns ih =>
    intro vals i k h
    cases vals with
    | nil => simp [kwZip, dictGetFrom]
    | cons v₀ vs =>
      have h1 : n ≠ k := fun he => h (he ▸ List.mem_cons_self n ns)
      have h2 : k ∉ ns := fun hm => h (List.mem_cons_of_mem _ hm)
      simp [kwZip, dictGetFrom, h1, ih vs (i + 1) k h2]

theorem dictGetFrom_indexEntries (args : List α) :
    ∀ (as : List α) (j i : Nat) (k : String),
      dictGetFrom args (indexEntries as j) i k = dictGet (indexEntries as j) k := by
  intro as
  induction as with
  | nil => intro j i k; simp [indexEntries, dictGetFrom, dictGet]
  | cons a rest ih =>
    intro j i k
    by_cases hk : toString j = k <;>
      simp [indexEntries, dictGetFrom, dictGet, hk, ih]

theorem dictGet_indexEntries_hit :
    ∀ (as : List α) (j i : Nat) (x : α), as[i]? = some x →
      dictGet (indexEntries as j) (toString (j + i)) = some (some x) := by
  intro as
  induction as with
  | nil => intro j i x h; simp at h
  | cons a rest ih =>
    intro j i x h
    cases i with
    | zero =>
      simp only [List.getElem?_cons_zero, Option.some.injEq] at h
      subst h
      simp [indexEntries, dictGet]
    | succ i =>
      simp only [List.getElem?_cons_succ] at h
      have hne : toString j ≠ toString (j + (i + 1)) := by
        intro he
        have := natToString_injective _ _ he
        omega
      simp only [indexEntries, dictGet, if_neg hne]
      have harith : j + 1 + i = j + (i + 1) := by omega
      rw [← harith]
      exact ih (j + 1) i x h

theorem dictGet_indexEntries_miss :
    ∀ (as : List α) (j i : Nat), (∀ t, t < as.length → j + t ≠ i) →
      dictGet (indexEntries as j) (toString i) = none := by
  intro as
  induction as with
  | nil => intro j i _; simp [indexEntries, dictGet]
  | cons a rest ih =>
    intro j i h
    have hne : toString j ≠ toString i := by
      intro he
      exact h 0 (Nat.succ_pos _) (by simpa using natToString_injective _ _ he)
    simp only [indexEntries, dictGet, if_neg hne]
    exact ih (j + 1) i fun t ht hji => h (t + 1) (by simpa using ht) (by omega)

theorem kwZip_length (kwargs : String → Option α) :
    ∀ (names : List String) (vals : List (Option α)),
      (kwZip kwargs names vals).length = min names.length vals.length := by
  intro names
  induction names with
  | nil => intro vals; simp [kwZip]
  | cons n ns ih =>
    intro vals
    cases vals with
    | nil => simp [kwZip]
    | cons v vs =>
      simp only [kwZip, List.length_cons, ih vs]
      omega

theorem get_keywords_length (sig : FuncSig α) (kwargs : String → Option α)
    (h : sig.defaults.length ≤ sig.args.length) :
    (get_keywords sig kwargs).length = sig.args.length := by
  simp only [get_keywords, kwZip_length, List.length_append, List.length_replicate,
    List.length_map]
  omega

end Sized

namespace Sized

theorem fillGo_err (fn : String) (args : List α) :
    ∀ (d : List (String × Option α)) (i t : Nat) (k : String),
      d[t]? = some (k, none) → args[i + t]? = none →
      (∀ j, j < t → ∀ k₁, d[j]? = some (k₁, (none : Option α)) →
        i + j < args.length) →
      fillGo fn args d i = .error (.missingArgument fn k) := by
  intro d
  induction d with
  | nil => intro i t k h1 _ _; simp at h1
  | cons hd rest ih =>
    obtain ⟨k₁, v⟩ := hd
    intro i t k h1 h2 h3
    cases t with
    | zero =>
      simp only [List.getElem?_cons_zero, Option.some.injEq, Prod.mk.injEq] at h1
      obtain ⟨hk, hv⟩ := h1
      subst hk
      subst hv
      have h2i : args[i]? = none := by simpa using h2
      simp [fillGo, h2i]
    | succ t =>
      simp only [List.getElem?_cons_succ] at h1
      have h2s : args[i + 1 + t]? = none := by
        have harith : i + 1 + t = i + (t + 1) := by omega
        rw [harith]; exact h2
      have h3s : ∀ j, j < t → ∀ k₂, rest[j]? = some (k₂, (none : Option α)) →
          i + 1 + j < args.length := by
        intro j hj k₂ hr
        have := h3 (j + 1) (by omega) k₂ (by simpa using hr)
        omega
      cases v with
      | none =>
        have hfill : i + 0 < args.length := h3 0 (Nat.succ_pos t) k₁ (by simp)
        have hi : i < args.length := by omega
        simp only [fillGo, List.getElem?_eq_getElem hi]
        rw [ih (i + 1) t k h1 h2s h3s]
        rfl
      | some w =>
        simp only [fillGo]
        rw [ih (i + 1) t k h1 h2s h3s]
        rfl

theorem seed_getElem_none (sig : FuncSig α) (i : Nat)
    (hreq : i < sig.args.length - sig.defaults.length) :
    (List.replicate (sig.args.length - sig.defaults.length) (none : Option α)
      ++ sig.defaults.map some)[i]? = some none := by
  rw [List.getElem?_append_left (by simp only [List.length_replicate]; omega)]
  exact List.getElem?_replicate_of_lt hreq

theorem resolve_args_ok_name_positional (fn : String) (sig : FuncSig α)
    (args : List α) (kwargs : String → Option α) (d : List (String × Option α))
    (p : String) (i : Nat)
    (hnd : sig.args.Nodup)
    (hp : sig.args[i]? = some p)
    (hreq : i < sig.args.length - sig.defaults.length)
    (hkw : kwargs p = none)
    (hok : resolve_args fn sig args kwargs = .ok d) :
    dictGet d p = some args[i]? := by
  have hlk := fillGo_ok_dictGet fn args _ 0 d hok p
  rw [dictGetFrom_append] at hlk
  simp only [get_keywords] at hlk
  rw [dictGetFrom_kwZip_name args kwargs sig.args _ 0 i p none hnd hp
    (seed_getElem_none sig i hreq)] at hlk
  simpa [hkw] using hlk

theorem resolve_args_ok_name_keyword (fn : String) (sig : FuncSig α)
    (args : List α) (kwargs : String → Option α) (d : List (String × Option α))
    (p : String) (w : α) (i : Nat)
    (hnd : sig.args.Nodup)
    (hdef : sig.defaults.length ≤ sig.args.length)
    (hp : sig.args[i]? = some p)
    (hkw : kwargs p = some w)
    (hok : resolve_args fn sig args kwargs = .ok d) :
    dictGet d p = some (some w) := by
  have hi : i < sig.args.length := (List.getElem?_eq_some_iff.mp hp).1
  have hvlen : i < (List.replicate (sig.args.length - sig.defaults.length)
      (none : Option α) ++ sig.defaults.map some).length := by
    simp only [List.length_append, List.length_replicate, List.length_map]
    omega
  have hlk := fillGo_ok_dictGet fn args _ 0 d hok p
  rw [dictGetFrom_append] at hlk
  simp only [get_keywords] at hlk
  rw [dictGetFrom_kwZip_name args kwargs sig.args _ 0 i p _ hnd hp
    (List.getElem?_eq_getElem hvlen)] at hlk
  simpa [hkw] using hlk

theorem resolve_args_ok_index_hit (fn : String) (sig : FuncSig α)
    (args : List α) (kwargs : String → Option α) (d : List (String × Option α))
    (x : α) (i : Nat)
    (hni : toString i ∉ sig.args)
    (hx : args[i]? = some x)
    (hok : resolve_args fn sig args kwargs = .ok d) :
    dictGet d (toString i) = some (some x) := by
  have hlk := fillGo_ok_dictGet fn args _ 0 d hok (toString i)
  rw [dictGetFrom_append] at hlk
  simp only [get_keywords] at hlk
  rw [dictGetFrom_kwZip_notMem args kwargs sig.args _ 0 _ hni,
    dictGetFrom_indexEntries] at hlk
  have hhit := dictGet_indexEntries_hit args 0 i x hx
  rw [Nat.zero_add] at hhit
  rw [hhit] at hlk
  simpa using hlk

theorem resolve_args_ok_index_miss (fn : String) (sig : FuncSig α)
    (args : List α) (kwargs : String → Option α) (d : List (String × Option α))
    (i : Nat)
    (hni : toString i ∉ sig.args)
    (hgt : args.length ≤ i)
    (hok : resolve_args fn sig args kwargs = .ok d) :
    dictGet d (toString i) = none := by
  have hlk := fillGo_ok_dictGet fn args _ 0 d hok (toString i)
  rw [dictGetFrom_append] at hlk
  simp only [get_keywords] at hlk
  rw [dictGetFrom_kwZip_notMem args kwargs sig.args _ 0 _ hni,
    dictGetFrom_indexEntries] at hlk
  rw [dictGet_indexEntries_miss args 0 i (fun t ht => by omega)] at hlk
  simpa using hlk

theorem resolve_args_missing (fn : String) (sig : FuncSig α)
    (args : List α) (kwargs : String → Option α) (p : String) (i : Nat)
    (hdef : sig.defaults.length ≤ sig.args.length)
    (hp : sig.args[i]? = some p)
    (hreq : i < sig.args.length - sig.defaults.length)
    (hkw : kwargs p = none)
    (hpos : args.length ≤ i)
    (hearlier : ∀ j, j < i → ∀ q, sig.args[j]? = some q → kwargs q = none →
      j < args.length) :
    resolve_args fn sig args kwargs = .error (.missingArgument fn p) := by
  have hkwlen : (get_keywords sig kwargs).length = sig.args.length :=
    get_keywords_length sig kwargs hdef
  simp only [resolve_args]
  apply fillGo_err fn args _ 0 i p
  · rw [List.getElem?_append_left (by omega)]
    simp only [get_keywords]
    rw [kwZip_getElem kwargs sig.args _ i p none hp (seed_getElem_none sig i hreq)]
    simp [hkw]
  · rw [Nat.zero_add]
    exact List.getElem?_eq_none hpos
  · intro j hj k₁ hjd
    have hjn : j < sig.args.length := by omega
    rw [List.getElem?_append_left (by omega)] at hjd
    simp only [get_keywords] at hjd
    have hq : sig.args[j]? = some (sig.args.get ⟨j, hjn⟩) := by
      simp [List.getElem?_eq_getElem hjn]
    rw [kwZip_getElem kwargs sig.args _ j _ none hq
      (seed_getElem_none sig j (by omega))] at hjd
    simp only [Option.some.injEq, Prod.mk.injEq] at hjd
    obtain ⟨hk1, hval⟩ := hjd
    have hkwq : kwargs (sig.args.get ⟨j, hjn⟩) = none := by
      cases hkwq : kwargs (sig.args.get ⟨j, hjn⟩) with
      | none => rfl
      | some w => rw [hkwq] at hval; simp at hval
    have := hearlier j hj _ hq hkwq
    omega

end Sized

namespace Sized

/-! ### Claim theorems: the `SizedGenerator` wrapper -/

/-- C1 (code bug): a wrapper of declared size 10 over an unbounded
generator reports `remaining()` of 10, 3 and 0 after 0, 7 and 10 advances
as the claim states, but — because `send` tests `self._index > self._length`
instead of `>=` — the first advance after the 10 successful pulls does NOT
signal end-of-sequence: it pulls an 11th item from the underlying generator
and returns it, driving `remaining()` to −1; only the advance after that
raises `StopIteration`. -/
theorem C1_off_by_one_eleventh_pull :
    SizedGenerator.init counterGen (.int 10) = .ok sCounter10 ∧
    sCounter10.len = 10 ∧
    ((runSends () 7 sCounter10).2).len = 3 ∧
    (runSends () 10 sCounter10).1 = (List.range 10).map PullResult.yield ∧
    ((runSends () 10 sCounter10).2).len = 0 ∧
    (((runSends () 10 sCounter10).2).send ()).1 = PullResult.yield 10 ∧
    (((runSends () 10 sCounter10).2).send ()).2.gen.state = 11 ∧
    (((runSends () 10 sCounter10).2).send ()).2.len = -1 ∧
    ((((runSends () 10 sCounter10).2).send ()).2.send ()).1 = PullResult.stop :=
  ⟨rfl, by decide, by decide, by decide, by decide, by decide, by decide,
    by decide, by decide⟩

/-- C6: `__len__` returns `total_size − consumed_count` as a plain `Int`
subtraction — negative, not clamped, once more advances were issued than
declared — and, being a pure function of the wrapper state, it neither
pulls from nor otherwise modifies the underlying generator.  The last
conjunct shows a negative value actually reached by running a size-2
wrapper for 3 advances over a live generator. -/
theorem C6_len_is_unclamped_subtraction (g : Gen σ ι β ε) (n : Int) (i : Nat) :
    SizedGenerator.len { gen := g, length := n, index := i } = n - i ∧
    (n < i → SizedGenerator.len { gen := g, length := n, index := i } < 0) ∧
    ((runSends () 3 sCounter2).2).len = -1 := by
  refine ⟨rfl, fun h => ?_, by decide⟩
  simp only [SizedGenerator.len]
  omega

/-- C7: in every non-exhausted advance the consumption counter is
incremented before the underlying pull, so the new index is the old index
plus one and `remaining()` drops by exactly one — with no case analysis on
the pull's outcome, hence also when the pull raises. -/
theorem C7_increment_precedes_pull (s : SizedGenerator σ ι β ε) (v : ι)
    (h : ¬((s.index : Int) > s.length)) :
    ((s.send v).2).index = s.index + 1 ∧ ((s.send v).2).len = s.len - 1 := by
  constructor
  · simp [SizedGenerator.send, if_neg h]
  · simp only [SizedGenerator.send, if_neg h, SizedGenerator.len]
    push_cast
    ring

/-- C7 witness: a size-5 wrapper whose underlying pull raises exception 7
still counts the advance: index goes 0 → 1 and `remaining()` 5 → 4. -/
theorem C7_witness :
    ¬((sRaise5.index : Int) > sRaise5.length) ∧
    ((sRaise5.send ()).2.index = sRaise5.index + 1 ∧
      (sRaise5.send ()).2.len = sRaise5.len - 1) ∧
    (sRaise5.send ()).1 = PullResult.raiseExc 7 :=
  ⟨by decide, C7_increment_precedes_pull sRaise5 () (by decide), by decide⟩

/-- C8 (code bug): a wrapper constructed with `total_size = 0` is NOT
exhausted at birth: because `send` tests `index > length`, its very first
advance pulls the underlying generator (the counter state moves 0 → 1) and
returns its first item; only the second advance raises `StopIteration`.
For strictly negative sizes the claimed behaviour does hold: the first
advance raises `StopIteration` and leaves the generator untouched. -/
theorem C8_zero_size_not_exhausted_at_birth :
    SizedGenerator.init counterGen (.int 0) = .ok sCounter0 ∧
    (sCounter0.send ()).1 = PullResult.yield 0 ∧
    (sCounter0.send ()).2.gen.state = 1 ∧
    (sCounter0.send ()).2.index = 1 ∧
    ((sCounter0.send ()).2.send ()).1 = PullResult.stop ∧
    SizedGenerator.init counterGen (.int (-1)) = .ok sCounterNeg ∧
    (sCounterNeg.send ()).1 = PullResult.stop ∧
    (sCounterNeg.send ()).2.gen.state = 0 ∧
    (sCounterNeg.send ()).2.index = 0 :=
  ⟨rfl, by decide, by decide, by decide, by decide, rfl, by decide, by decide,
    by decide⟩

/-- C9: `throw` is a pure forwarding channel: its outcome is exactly the
underlying generator's `throw` outcome — if the underlying generator
re-raises the injected exception the caller sees that same exception, and
if it recovers and yields a value the caller receives that value; the
wrapper never substitutes an outcome of its own. -/
theorem C9_throw_forwards_verbatim (s : SizedGenerator σ ι β ε) (e : ε) :
    (s.throw e).1 = (s.gen.throwFn s.gen.state e).1 ∧
    ((s.gen.throwFn s.gen.state e).1 = .raiseExc e →
      (s.throw e).1 = .raiseExc e) ∧
    (∀ v, (s.gen.throwFn s.gen.state e).1 = .yield v →
      (s.throw e).1 = .yield v) := by
  refine ⟨rfl, fun h => ?_, fun v h => ?_⟩ <;>
    simp only [SizedGenerator.throw, h]

/-- C9 witness: throwing exception 3 into a wrapper over a non-handling
generator re-raises 3; throwing it into a wrapper over a handling generator
returns the recovery value 99. -/
theorem C9_witness :
    (sRaise5.gen.throwFn sRaise5.gen.state 3).1 = PullResult.raiseExc 3 ∧
    (sRaise5.throw 3).1 = PullResult.raiseExc 3 ∧
    (sRecover5.gen.throwFn sRecover5.gen.state 3).1 = PullResult.yield 99 ∧
    (sRecover5.throw 3).1 = PullResult.yield 99 :=
  ⟨by decide, (C9_throw_forwards_verbatim sRaise5 3).2.1 (by decide),
    by decide, (C9_throw_forwards_verbatim sRecover5 3).2.2 99 (by decide)⟩

/-- C10: `throw` never modifies the consumption bookkeeping: after any
`throw` — including one the underlying generator answers by yielding a
value — `remaining()`, the index and the declared length are all exactly
what they were before, so a value obtained via `throw` is not counted as
consumption. -/
theorem C10_throw_preserves_remaining (s : SizedGenerator σ ι β ε) (e : ε) :
    ((s.throw e).2).len = s.len ∧ ((s.throw e).2).index = s.index ∧
    ((s.throw e).2).length = s.length :=
  ⟨rfl, rfl, rfl⟩

end Sized

namespace Sized

/-! ### Claim theorems: argument resolution and size resolution -/

/-- C6 witness: a state with declared length 3 and index 5 has negative
`remaining()`. -/
theorem C6_witness :
    (3 : Int) < ((5 : Nat) : Int) ∧
    SizedGenerator.len { gen := counterGen, length := 3, index := 5 } < 0 :=
  ⟨by decide, (C6_len_is_unclamped_subtraction counterGen 3 5).2.1 (by decide)⟩

/-- C2 counterexample: for `def gen(n)` called as `gen(n=42)` the resolved
mapping has the single entry `n = 42` — there is no `0`-keyed entry, so the claimed
positional-index alias for a keyword-supplied value does not exist. -/
theorem C2_counterexample_keyword_lacks_index_alias :
    resolve_args "gen" ⟨["n"], []⟩ ([] : List Int)
      (fun k => if k = "n" then some 42 else none) = .ok [("n", some 42)] ∧
    dictGet [("n", some (42 : Int))] "0" = none ∧
    dictGet [("n", some (42 : Int))] "n" = some (some 42) :=
  ⟨rfl, rfl, rfl⟩

/-- C2 (amended): when the value of parameter `p` (declared at position
`i`, no default, not also given as a keyword) is supplied positionally, the
mapping holds it both under `p` and under `str(i)`, so both lookups resolve
identically; but when `p` is supplied only by keyword (no i-th positional
argument exists), the value is reachable under `p` alone and the `str(i)`
key is absent. -/
theorem C2_positional_alias (fn : String) (sig : FuncSig α) (args : List α)
    (kwargs : String → Option α) (d : List (String × Option α)) (p : String)
    (i : Nat) (x : α)
    (hnd : sig.args.Nodup)
    (hdef : sig.defaults.length ≤ sig.args.length)
    (hp : sig.args[i]? = some p)
    (hni : toString i ∉ sig.args)
    (hok : resolve_args fn sig args kwargs = .ok d) :
    (i < sig.args.length - sig.defaults.length → kwargs p = none →
      args[i]? = some x →
      dictGet d p = some (some x) ∧ dictGet d (toString i) = some (some x)) ∧
    (∀ w : α, kwargs p = some w → args.length ≤ i →
      dictGet d p = some (some w) ∧ dictGet d (toString i) = none) := by
  constructor
  · intro hreq hkw hx
    refine ⟨?_, resolve_args_ok_index_hit fn sig args kwargs d x i hni hx hok⟩
    rw [resolve_args_ok_name_positional fn sig args kwargs d p i hnd hp hreq
      hkw hok, hx]
  · intro w hkw hgt
    exact ⟨resolve_args_ok_name_keyword fn sig args kwargs d p w i hnd hdef hp
      hkw hok,
      resolve_args_ok_index_miss fn sig args kwargs d i hni hgt hok⟩

/-- C2 witness: `def gen(n)` called as `gen(42)` — the value 42 is found
both under `"n"` and under the stringified index 0. -/
theorem C2_witness :
    resolve_args "gen" ⟨["n"], []⟩ [(42 : Int)] (fun _ => none) =
      .ok [("n", some 42), ("0", some 42)] ∧
    dictGet [("n", some (42 : Int)), ("0", some 42)] "n" = some (some 42) ∧
    dictGet [("n", some (42 : Int)), ("0", some 42)] (toString (0 : Nat)) =
      some (some 42) := by
  have hok : resolve_args "gen" ⟨["n"], []⟩ [(42 : Int)] (fun _ => none) =
      .ok [("n", some 42), ("0", some 42)] := rfl
  have h := (C2_positional_alias "gen" ⟨["n"], []⟩ [(42 : Int)] (fun _ => none)
    _ "n" 0 42 (by decide) (by decide) (by decide) (by decide) hok).1
    (by decide) rfl (by decide)
  exact ⟨hok, h.1, h.2⟩

/-- C3 (code bug): for `def gen(a, b=10)` called as `gen(1, 2)` the
resolved mapping binds `b` to the declared default 10, not to the
positionally supplied 2 (which survives only under the index key "1"):
the sentinel-fill loop replaces only `null` slots, and a slot holding a
default is never `null`, so a positional argument never overrides a
default. -/
theorem C3_default_shadows_positional :
    resolve_args "gen" ⟨["a", "b"], [(10 : Int)]⟩ [1, 2] (fun _ => none) =
      .ok [("a", some 1), ("b", some 10), ("0", some 1), ("1", some 2)] ∧
    dictGet [("a", some (1 : Int)), ("b", some 10), ("0", some 1),
      ("1", some 2)] "b" = some (some 10) :=
  ⟨rfl, rfl⟩

/-- C4 counterexample: a call of `def gen(a, b)` omitting both required
parameters fails naming only `a`; for the equally omitted parameter `b`
the raised error does not name it. -/
theorem C4_counterexample_names_first_only :
    resolve_args "gen" ⟨["a", "b"], []⟩ ([] : List Int) (fun _ => none) =
      .error (.missingArgument "gen" "a") ∧
    Err.missingArgument "gen" "a" ≠ Err.missingArgument "gen" "b" :=
  ⟨rfl, by decide⟩

/-- C4 (amended): when the call leaves required parameter `p` (declared at
position `i`, no default) unsupplied both positionally and by keyword, and
every earlier sentinel slot can be filled positionally (so `p` is the first
omitted required parameter in declaration order), mapping construction
fails with the missing-argument error naming `p`; and the decorated call
with a callable size specification returns that same error for every
conceivable wrapped function — the wrapped generator-producing function is
never consulted. -/
theorem C4_missing_argument_fails_first (fn : String) (sig : FuncSig α)
    (args : List α) (kwargs : String → Option α) (p : String) (i : Nat)
    (hdef : sig.defaults.length ≤ sig.args.length)
    (hp : sig.args[i]? = some p)
    (hreq : i < sig.args.length - sig.defaults.length)
    (hkw : kwargs p = none)
    (hpos : args.length ≤ i)
    (hearlier : ∀ j, j < i → ∀ q, sig.args[j]? = some q → kwargs q = none →
      j < args.length) :
    resolve_args fn sig args kwargs = .error (.missingArgument fn p) ∧
    ∀ (σ₁ ι₁ β₁ ε₁ : Type) (f : List (String × Option α) → SizeLike)
      (func₁ func₂ : List α → (String → Option α) → Gen σ₁ ι₁ β₁ ε₁),
      sized_call (.callable f) fn sig func₁ args kwargs =
        .error (.missingArgument fn p) ∧
      sized_call (.callable f) fn sig func₁ args kwargs =
        sized_call (.callable f) fn sig func₂ args kwargs := by
  have hres := resolve_args_missing fn sig args kwargs p i hdef hp hreq hkw
    hpos hearlier
  refine ⟨hres, fun σ₁ ι₁ β₁ ε₁ f func₁ func₂ => ?_⟩
  constructor <;> simp [sized_call, wrapperResolve, hres, Except.bind]

/-- C4 witness: `def gen(a, b)` called as `gen(1)` — `b` is the first (and
only) omitted required parameter and the error names it. -/
theorem C4_witness :
    (["a", "b"] : List String)[1]? = some "b" ∧
    List.length [(1 : Int)] ≤ 1 ∧
    resolve_args "gen" ⟨["a", "b"], []⟩ [(1 : Int)] (fun _ => none) =
      .error (.missingArgument "gen" "b") := by
  refine ⟨by decide, by decide, ?_⟩
  exact (C4_missing_argument_fails_first "gen" ⟨["a", "b"], []⟩ [(1 : Int)]
    (fun _ => none) "b" 1 (by decide) (by decide) (by decide) rfl (by decide)
    (fun j hj q hq hkq => by simpa using hj)).1

/-- C5 counterexample: two distinct size specifications of the same
invalid type produce byte-for-byte identical errors — the decorator's
catch-all raises `TypeError("Expected int or Callable, got <type>")`, which
carries only the type, so the error cannot be naming the offending value. -/
theorem C5_counterexample_names_type_only :
    wrapperResolve (SizeSpec.other "1.5" "float") "gen" ⟨["n"], []⟩
      ([] : List Int) (fun _ => none) =
      .error (.expectedIntOrCallable "float") ∧
    wrapperResolve (SizeSpec.other "2.5" "float") "gen" ⟨["n"], []⟩
      ([] : List Int) (fun _ => none) =
      .error (.expectedIntOrCallable "float") ∧
    ("1.5" : String) ≠ "2.5" :=
  ⟨rfl, rfl, by decide⟩

/-- C5 (amended): size resolution case analysis — an integer specification
is returned unchanged (negative included), a sized specification resolves
to its length, a callable is invoked on the resolved argument mapping and
its result is normalized through the same `_get_size` rule, and any other
specification fails with the `TypeError` naming the expected alternatives
and the offending specification's type (not its value); in the failing case
the decorated call returns that error identically for every conceivable
wrapped function, i.e. before the wrapped function executes. -/
theorem C5_size_resolution_cases (fn : String) (sig : FuncSig α)
    (args : List α) (kwargs : String → Option α) :
    (∀ n : Int, wrapperResolve (.int n) fn sig args kwargs = .ok n) ∧
    (∀ l : Nat, wrapperResolve (.sizedObj l) fn sig args kwargs = .ok (l : Int)) ∧
    (∀ (f : List (String × Option α) → SizeLike) (d : List (String × Option α)),
      resolve_args fn sig args kwargs = .ok d →
      wrapperResolve (.callable f) fn sig args kwargs = get_size (f d)) ∧
    (∀ v t : String, wrapperResolve (.other v t) fn sig args kwargs =
      .error (.expectedIntOrCallable t)) ∧
    (∀ (σ₁ ι₁ β₁ ε₁ : Type) (v t : String)
      (func₁ func₂ : List α → (String → Option α) → Gen σ₁ ι₁ β₁ ε₁),
      sized_call (.other v t) fn sig func₁ args kwargs =
        .error (.expectedIntOrCallable t) ∧
      sized_call (.other v t) fn sig func₁ args kwargs =
        sized_call (.other v t) fn sig func₂ args kwargs) := by
  refine ⟨fun n => rfl, fun l => rfl, fun f d hok => ?_, fun v t => rfl,
    fun σ₁ ι₁ β₁ ε₁ v t func₁ func₂ => ⟨rfl, rfl⟩⟩
  simp [wrapperResolve, hok, size_call, Except.bind]

/-- C5 witness: with `def gen(n)` called as `gen(5)`, a callable
specification is resolved against the argument mapping and normalized by
`_get_size`. -/
theorem C5_witness :
    resolve_args "gen" ⟨["n"], []⟩ [(5 : Int)] (fun _ => none) =
      .ok [("n", some 5), ("0", some 5)] ∧
    wrapperResolve (.callable fun _ => .int 7) "gen" ⟨["n"], []⟩ [(5 : Int)]
      (fun _ => none) = get_size (.int 7) := by
  have hok : resolve_args "gen" ⟨["n"], []⟩ [(5 : Int)] (fun _ => none) =
      .ok [("n", some 5), ("0", some 5)] := rfl
  exact ⟨hok, (C5_size_resolution_cases "gen" ⟨["n"], []⟩ [(5 : Int)]
    (fun _ => none)).2.2.1 _ _ hok⟩

end Sized
